import Mathlib

set_option maxHeartbeats 1000000

/-!
Verification development for the Dashboard-2.0 ingestion and job-orchestration
core.  The Python sources are shallowly embedded as Lean definitions:

* the batch writer's bounded queue (`InfluxWriter.enqueue` in
  `getStats8remoteWithInfluxVerboseNovel.py` and `InfluxConnector.enqueue` in
  `src/telemetry/influx_connector.py`);
* the line-protocol encoders (`lp_line` / `_esc_tag` in the collector script,
  `to_line_protocol` / `_escape_tag` in `memdump_service.py`);
* the feature computation (`_compute_features_and_enqueue`), over the reals;
* the write sink with its v3 -> v2 -> backlog fallback (`write_influx_point`);
* the progress monitor's update formula (`start_progress_monitor`);
* the writer thread's shutdown drain loop (`InfluxWriter.run`);
* the dump scheduler (`trigger_dumps` / `_dump_worker`) as a small-step
  transition system over the status map, the worker threads and the counting
  semaphore;
* the VM-id validator (`_extract_vmid` in `memdump.py`).

Strings from the sources are embedded as `List Char`; machine floats are
embedded as real (respectively rational) numbers; exceptions become `Except`
or `Option` values.
-/

-- ===========================================================================
-- BatchWriter bounded queue
-- (getStats8remoteWithInfluxVerboseNovel.py `InfluxWriter.enqueue`,
--  src/telemetry/influx_connector.py `InfluxConnector.enqueue`)
-- ===========================================================================

/-- Queue capacity used by both writers (`queue.Queue(maxsize=20000)`). -/
def QUEUE_MAXSIZE : Nat := 20000

/-- `enqueue(line)`: `put_nowait` appends at the back; on `queue.Full`
(the queue already holds `maxsize` items) the oldest item — the front,
returned by `get_nowait` — is discarded and the new line is inserted. -/
def enqueue (maxsize : Nat) (q : List String) (line : String) : List String :=
  if q.length < maxsize then q ++ [line] else q.tail ++ [line]

/-- A whole sequence of producer `enqueue` calls, starting from the empty
queue, with no consumer running. -/
def enqueueAll (maxsize : Nat) (lines : List String) : List String :=
  lines.foldl (enqueue maxsize) []

-- ===========================================================================
-- Line-protocol encoders
-- ===========================================================================

/-- Python `str.replace` for a single-character pattern: every occurrence of
`c` is replaced by `r`.  All `replace` calls in the encoders have
single-character patterns, so this is exact. -/
def pyReplace (s : List Char) (c : Char) (r : List Char) : List Char :=
  s.flatMap (fun x => if x = c then r else [x])

/-- `_esc_tag` from `getStats8remoteWithInfluxVerboseNovel.py` (line 101),
identical to `TelemetryCollector._escape_tag` in `src/telemetry/collector.py`:
backslash first, then space, comma, equals. -/
def esc_tag (s : List Char) : List Char :=
  pyReplace (pyReplace (pyReplace (pyReplace s '\\' [ '\\', '\\' ])
    ' ' [ '\\', ' ' ]) ',' [ '\\', ',' ]) '=' [ '\\', '=' ]

/-- `_escape_tag` from `memdump_service.py` (line 136): comma, space, equals —
note that this variant never escapes the backslash itself. -/
def escape_tag (s : List Char) : List Char :=
  pyReplace (pyReplace (pyReplace s ',' [ '\\', ',' ])
    ' ' [ '\\', ' ' ]) '=' [ '\\', '=' ]

/-- `_esc_str_field` / `_escape_str_field` (identical in both files): quote the
string and escape backslash then double quote inside it. -/
def escape_str_field (s : List Char) : List Char :=
  [ '"' ] ++ pyReplace (pyReplace s '\\' [ '\\', '\\' ]) '"' [ '\\', '"' ] ++ [ '"' ]

/-- Character-wise escaping map: the specification of what a correct tag
escaper does.  Each of the four reserved characters is preceded by a single
backslash; every other character passes through unchanged. -/
def escChar (c : Char) : List Char :=
  if c = '\\' ∨ c = ' ' ∨ c = ',' ∨ c = '=' then [ '\\', c ] else [c]

/-- Character-wise map actually realized by `memdump_service._escape_tag`:
only space, comma and equals are escaped; backslash passes through. -/
def escCharNoBackslash (c : Char) : List Char :=
  if c = ' ' ∨ c = ',' ∨ c = '=' then [ '\\', c ] else [c]

/-- Scalar field values of the encoders.  Python floats are omitted from the
embedding: their decimal rendering (with NaN/Infinity coerced to `0`) is
orthogonal to every claim below, which concern escaping and structure only. -/
inductive FieldVal where
  | fbool (b : Bool)
  | fint (n : Int)
  | fstr (s : List Char)
  deriving DecidableEq

/-- Decimal rendering of an integer, as Python string interpolation does. -/
def intToChars (n : Int) : List Char :=
  (toString n).toList

/-- `_fmt_field_value` from the collector script: booleans as `true`/`false`,
integers with an `i` suffix, strings quoted and escaped. -/
def fmt_field_value : FieldVal → List Char
  | .fbool b => if b then "true".toList else "false".toList
  | .fint n => intToChars n ++ [ 'i' ]
  | .fstr s => escape_str_field s

/-- Field rendering inside `memdump_service.to_line_protocol`: booleans as
`str(v).lower()`, integers bare (no `i` suffix), strings quoted and escaped. -/
def fmt_field_value_service : FieldVal → List Char
  | .fbool b => if b then "true".toList else "false".toList
  | .fint n => intToChars n
  | .fstr s => escape_str_field s

/-- Lexicographic strict order on strings-as-lists, matching Python's `<` on
`str` for the key sets we model. -/
def lexLt : List Char → List Char → Bool
  | [], [] => false
  | [], _ :: _ => true
  | _ :: _, [] => false
  | a :: s, b :: t => if a < b then true else if b < a then false else lexLt s t

/-- Insert into a sorted list (ascending, stable). -/
def insortBy {α : Type} (lt : α → α → Bool) (x : α) : List α → List α
  | [] => [x]
  | y :: ys => if lt x y then x :: y :: ys else y :: insortBy lt x ys

/-- Python `sorted` on an association list (insertion sort; dict keys are
unique so stability questions do not arise). -/
def sortBy {α : Type} (lt : α → α → Bool) (l : List α) : List α :=
  l.foldr (insortBy lt) []

/-- Key order used by `sorted(tags.items())` / `sorted(fields.items())`. -/
def keyLt {β : Type} (p q : List Char × β) : Bool :=
  lexLt p.1 q.1

/-- `to_line_protocol` from `memdump_service.py` (line 144): sorted tag pairs
with key and value escaped by `_escape_tag`, sorted fields, measurement
embedded verbatim. -/
def to_line_protocol (measurement : List Char) (tags : List (List Char × List Char))
    (fields : List (List Char × FieldVal)) (ts_ns : Int) : List Char :=
  let tagStr : List Char :=
    if tags = [] then []
    else [ ',' ] ++ List.intercalate [ ',' ]
      ((sortBy keyLt tags).map (fun kv => escape_tag kv.1 ++ [ '=' ] ++ escape_tag kv.2))
  let fieldStr : List Char :=
    List.intercalate [ ',' ]
      ((sortBy keyLt fields).map (fun kv => kv.1 ++ [ '=' ] ++ fmt_field_value_service kv.2))
  measurement ++ (tagStr ++ ([ ' ' ] ++ (fieldStr ++ ([ ' ' ] ++ intToChars ts_ns))))

/-- `lp_line` from `getStats8remoteWithInfluxVerboseNovel.py` (line 120):
`None` values are filtered out of fields (with a `noop` placeholder when
nothing remains) and of tags; tag values are escaped by `_esc_tag` but tag
keys and the measurement are embedded verbatim; no sorting. -/
def lp_line (measurement : List Char) (tags : List (List Char × Option (List Char)))
    (fields : List (List Char × Option FieldVal)) (ts_ns : Int) : List Char :=
  let f : List (List Char × FieldVal) :=
    fields.filterMap (fun kv => kv.2.map (fun v => (kv.1, v)))
  let f : List (List Char × FieldVal) :=
    if f = [] then [("noop".toList, FieldVal.fint 0)] else f
  let tagParts : List (List Char) :=
    tags.filterMap (fun kv => kv.2.map (fun v => kv.1 ++ [ '=' ] ++ esc_tag v))
  let fieldStr : List Char :=
    List.intercalate [ ',' ] (f.map (fun kv => kv.1 ++ [ '=' ] ++ fmt_field_value kv.2))
  if tagParts = [] then
    measurement ++ ([ ' ' ] ++ (fieldStr ++ ([ ' ' ] ++ intToChars ts_ns)))
  else
    measurement ++ ([ ',' ] ++ (List.intercalate [ ',' ] tagParts
      ++ ([ ' ' ] ++ (fieldStr ++ ([ ' ' ] ++ intToChars ts_ns)))))

-- ===========================================================================
-- WriteSink (memdump_service.py `write_influx_point`, `_write_backlog_line`)
-- ===========================================================================

/-- `str(e).split("\n")[0]`: the first line of an error message. -/
def firstLine (s : List Char) : List Char :=
  s.takeWhile (fun c => c ≠ '\n')

/-- `_write_backlog_line` (line 187): append a header line
`# <ts> | influx_write_failed | <error>` and then the undelivered record to
the backlog file (modelled as the file's character contents). -/
def write_backlog_line (file : List Char) (tsIso : List Char)
    (error_msg : List Char) (line : List Char) : List Char :=
  file ++ "# ".toList ++ tsIso ++ " | influx_write_failed | ".toList ++ error_msg
    ++ [ '\n' ] ++ line ++ (if line.getLast? = some '\n' then [] else [ '\n' ])

/-- Outcome of one `write_influx_point` call; the source logs these three
cases distinctly and never re-raises. -/
inductive WriteOutcome where
  | okV3
  | okV2
  | backlogged
  deriving DecidableEq

/-- `write_influx_point` (line 202).  The two HTTP attempts are external
effects; their outcomes enter the model as `v3err` / `v2err` (`none` means
the attempt succeeded, `some e` that it raised with message `e`).  The
function is total: every exception path in the source is caught, so nothing
propagates to the caller. -/
def write_influx_point (v3err v2err : Option (List Char)) (tsIso : List Char)
    (measurement : List Char) (tags : List (List Char × List Char))
    (fields : List (List Char × FieldVal)) (ts_ns : Int)
    (file : List Char) : WriteOutcome × List Char :=
  let line := to_line_protocol measurement tags fields ts_ns
  match v3err with
  | none => (WriteOutcome.okV3, file)
  | some e3 =>
    match v2err with
    | none => (WriteOutcome.okV2, file)
    | some e2 =>
      let combined := "v3: ".toList ++ firstLine e3 ++ " ; v2: ".toList ++ firstLine e2
      (WriteOutcome.backlogged, write_backlog_line file tsIso combined line)

-- ===========================================================================
-- ProgressMonitor (memdump_service.py `start_progress_monitor`)
-- ===========================================================================

/-- One monitor tick: `progress = 0.0`, then
`if expected_bytes > 0: progress = min(100.0, (size / expected_bytes) * 100.0)`.
Sizes and percentages are embedded as rationals. -/
def monitor_progress (size expected_bytes : ℚ) : ℚ :=
  if 0 < expected_bytes then min 100 (size / expected_bytes * 100) else 0

-- ===========================================================================
-- InfluxWriter.run shutdown drain
-- (getStats8remoteWithInfluxVerboseNovel.py line 146,
--  src/telemetry/influx_connector.py line 68 — identical loop structure)
-- ===========================================================================

/-- Loop state of `InfluxWriter.run` after `stop()` was issued: the local
`buf` list, the elapsed wall time since the last flush, and the lines flushed
(POSTed) so far. -/
structure DrainState where
  buf : List String
  elapsed : ℚ
  flushed : List String
  deriving DecidableEq

/-- One post-shutdown loop iteration.  With `_running = False` and the queue
non-empty, `q.get(timeout)` returns the head immediately; the iteration's wall
time is the item's second component (an adversarial schedule).  A flush
happens only when `len(buf) >= batch_lines` or `batch_sec` has elapsed since
the last flush (`should_flush and buf`). -/
def drainStep (batch_lines : Nat) (batch_sec : ℚ) (s : DrainState)
    (item : String × ℚ) : DrainState :=
  let buf := s.buf ++ [item.1]
  let elapsed := s.elapsed + item.2
  if batch_lines ≤ buf.length ∨ batch_sec ≤ elapsed then
    { buf := [], elapsed := 0, flushed := s.flushed ++ buf }
  else
    { buf := buf, elapsed := elapsed, flushed := s.flushed }

/-- The whole post-shutdown drain: the loop runs while the queue is non-empty,
consuming every queued item, and exits as soon as the queue is empty — at
which point `run` returns and whatever is left in `buf` is gone. -/
def drainRun (batch_lines : Nat) (batch_sec : ℚ)
    (items : List (String × ℚ)) : DrainState :=
  items.foldl (drainStep batch_lines batch_sec) ⟨[], 0, []⟩

-- ===========================================================================
-- FeatureComputer (getStats8remoteWithInfluxVerboseNovel.py
-- `_compute_features_and_enqueue`, lines 218-269)
-- ===========================================================================

/-- `EPS = 1e-12` (line 216). -/
noncomputable def EPS : ℝ := 1 / 10 ^ 12

/-- `dt_s = (snap.ts - prev.ts).total_seconds(); if dt_s <= 0: dt_s = EPS`. -/
noncomputable def dt_eff (dt_s : ℝ) : ℝ :=
  if dt_s ≤ 0 then EPS else dt_s

/-- `d = curr - old; if d < 0: d = 0.0` — counter-reset protection. -/
noncomputable def delta_clamped (curr old : ℝ) : ℝ :=
  if curr - old < 0 then 0 else curr - old

/-- `rate = d / (dt_s + EPS)` for one tracked counter, from the previous and
current timestamps (seconds) and counter values. -/
noncomputable def rate_of (prev_ts curr_ts old curr : ℝ) : ℝ :=
  delta_clamped curr old / (dt_eff (curr_ts - prev_ts) + EPS)

/-- `angle_deg = math.degrees(math.atan(rate))`. -/
noncomputable def angle_deg (r : ℝ) : ℝ :=
  (180 / Real.pi) * Real.arctan r

-- ===========================================================================
-- VM-id validation (memdump.py `_extract_vmid`, lines 177-219)
-- ===========================================================================

/-- `MAX_VMID = 99999` (line 53). -/
def MAX_VMID : Nat := 99999

/-- Python `str.strip()`: drop leading and trailing whitespace. -/
def pyStrip (cs : List Char) : List Char :=
  ((cs.dropWhile Char.isWhitespace).reverse.dropWhile Char.isWhitespace).reverse

/-- Fold step building the maximal digit runs of a string (the matches of
`re.findall(r"\d+", s)`): first component is the finished runs, second the
currently open run.  Digits are modelled as ASCII `0`-`9`. -/
def runsStep (acc : List (List Char) × List Char) (c : Char) :
    List (List Char) × List Char :=
  if c.isDigit then (acc.1, acc.2 ++ [c])
  else if acc.2 = [] then (acc.1, [])
  else (acc.1 ++ [acc.2], [])

/-- `re.findall(r"\d+", s)`: the list of maximal digit runs of `s`. -/
def digitRuns (cs : List Char) : List (List Char) :=
  let p := cs.foldl runsStep ([], [])
  if p.2 = [] then p.1 else p.1 ++ [p.2]

/-- Python `int(...)` on a digit run. -/
def digitsToNat (run : List Char) : Nat :=
  run.foldl (fun a c => 10 * a + (c.toNat - 48)) 0

/-- `VALID_VMID_PATTERN = re.compile(r"^[0-9]{1,5}$")` (line 52): a full-string
match of one to five ASCII digits. -/
def valid_vmid_pattern (cs : List Char) : Bool :=
  decide (cs ≠ []) && decide (cs.length ≤ 5) && cs.all Char.isDigit

/-- Inputs to `_extract_vmid`: an `int`, a `str`, or anything else. -/
inductive VmKey where
  | vint (n : Int)
  | vstr (cs : List Char)
  | vother
  deriving DecidableEq

/-- The distinct `raise ValueError(...)` sites of `_extract_vmid`. -/
inductive VmidError where
  | badType
  | emptyInput
  | noDigits
  | outOfRange
  deriving DecidableEq

/-- `_extract_vmid`: ints go straight to the range check; strings are
stripped, rejected when empty, searched for digit runs (`re.findall`),
rejected when digit-free, and the **last** run is converted with `int`;
finally `vmid <= 0 or vmid > MAX_VMID` is rejected.  The range check is
written per branch here, which is equivalent to the source's single shared
check because `vmid` is an int in both surviving branches. -/
def extract_vmid : VmKey → Except VmidError Int
  | .vint n =>
    if n ≤ 0 ∨ (MAX_VMID : Int) < n then .error .outOfRange else .ok n
  | .vstr cs =>
    let t := pyStrip cs
    if t = [] then .error .emptyInput
    else
      match (digitRuns t).getLast? with
      | none => .error .noDigits
      | some run =>
        if (digitsToNat run : Int) ≤ 0 ∨ (MAX_VMID : Int) < (digitsToNat run : Int) then
          .error .outOfRange
        else .ok ((digitsToNat run : Int))
  | .vother => .error .badType

/-- `True` exactly on the non-raising results of `extract_vmid`. -/
def vmidOk {ε α : Type} : Except ε α → Bool
  | .ok _ => true
  | .error _ => false

-- ===========================================================================
-- JobScheduler (memdump_service.py `trigger_dumps`, `_dump_worker`,
-- `_active_dumps`, `_concurrency_sem`) as a small-step transition system
-- ===========================================================================

/-- The four values of `DumpStatus.state`. -/
inductive JState where
  | queued
  | running
  | completed
  | failed
  deriving DecidableEq

/-- The part of a `DumpStatus` record the claims are about: `dump_id`
(`uuid.uuid4()`, modelled by a monotone counter) and `state`.  `progress`,
timestamps and paths are carried by the source record but play no role in the
scheduling invariants; `progress` is treated separately by the progress
monitor model. -/
structure JobRec where
  dump_id : Nat
  jstate : JState
  deriving DecidableEq

/-- Control point of one `_dump_worker` thread: before
`_concurrency_sem.acquire()` returns; slot held but `running` not yet written;
`running` written, dump in flight; terminal status written, slot not yet
released (the `finally` block); finished. -/
inductive WPhase where
  | waiting
  | slotHeld
  | working
  | releasing
  | wdone
  deriving DecidableEq

/-- One spawned `_dump_worker` thread. -/
structure Worker (K : Type) where
  key : K
  dump_id : Nat
  phase : WPhase

/-- Global scheduler state: `_active_dumps` (the status map), the live worker
threads, the free count of `_concurrency_sem`, and the id supply. -/
structure SchedState (K : Type) where
  statuses : K → Option JobRec
  workers : List (Worker K)
  sem : Nat
  nextId : Nat

/-- `existing.state in ("queued", "running")`. -/
def isActiveState (st : JState) : Bool :=
  decide (st = JState.queued) || decide (st = JState.running)

/-- The body of `trigger_dumps` for a key with no active dump: create a fresh
record in state `queued` under the lock and spawn a worker thread. -/
def spawn_job {K : Type} [DecidableEq K] (s : SchedState K) (k : K) :
    SchedState K × JobRec :=
  ({ statuses := Function.update s.statuses k (some ⟨s.nextId, JState.queued⟩),
     workers := ⟨k, s.nextId, WPhase.waiting⟩ :: s.workers,
     sem := s.sem,
     nextId := s.nextId + 1 },
   ⟨s.nextId, JState.queued⟩)

/-- One iteration of the `trigger_dumps` loop for key `k` (POST /api/dumps
handles a list of keys by running this per key): if the existing dump is
`queued` or `running`, return it unchanged and spawn nothing; otherwise create
a fresh queued record and spawn a worker. -/
def trigger_one {K : Type} [DecidableEq K] (s : SchedState K) (k : K) :
    SchedState K × JobRec :=
  match s.statuses k with
  | some r => if isActiveState r.jstate then (s, r) else spawn_job s k
  | none => spawn_job s k

/-- Small-step semantics of the service: API submissions interleave with the
worker threads' transitions.  `acquire` blocks while `sem = 0`; the terminal
status write happens before the `finally` release; the progress monitor never
touches `state`, so it contributes no step here. -/
inductive SchedStep {K : Type} [DecidableEq K] (N : Nat) :
    SchedState K → SchedState K → Prop where
  | submit (s : SchedState K) (k : K) :
      SchedStep N s (trigger_one s k).1
  | acquire (s : SchedState K) (l₁ l₂ : List (Worker K)) (w : Worker K)
      (hw : s.workers = l₁ ++ w :: l₂) (hph : w.phase = WPhase.waiting)
      (hsem : 0 < s.sem) :
      SchedStep N s { s with workers := l₁ ++ { w with phase := WPhase.slotHeld } :: l₂,
                             sem := s.sem - 1 }
  | markRunning (s : SchedState K) (l₁ l₂ : List (Worker K)) (w : Worker K)
      (hw : s.workers = l₁ ++ w :: l₂) (hph : w.phase = WPhase.slotHeld) :
      SchedStep N s { s with workers := l₁ ++ { w with phase := WPhase.working } :: l₂,
                             statuses := Function.update s.statuses w.key
                               (some ⟨w.dump_id, JState.running⟩) }
  | finish (s : SchedState K) (l₁ l₂ : List (Worker K)) (w : Worker K)
      (st : JState) (hterm : st = JState.completed ∨ st = JState.failed)
      (hw : s.workers = l₁ ++ w :: l₂) (hph : w.phase = WPhase.working) :
      SchedStep N s { s with workers := l₁ ++ { w with phase := WPhase.releasing } :: l₂,
                             statuses := Function.update s.statuses w.key
                               (some ⟨w.dump_id, st⟩) }
  | release (s : SchedState K) (l₁ l₂ : List (Worker K)) (w : Worker K)
      (hw : s.workers = l₁ ++ w :: l₂) (hph : w.phase = WPhase.releasing) :
      SchedStep N s { s with workers := l₁ ++ { w with phase := WPhase.wdone } :: l₂,
                             sem := s.sem + 1 }

/-- Process start: empty status map, no workers,
`_concurrency_sem = threading.Semaphore(MAX_PARALLEL_DUMPS)`. -/
def initState (K : Type) (N : Nat) : SchedState K :=
  ⟨fun _ => none, [], N, 0⟩

/-- States the service can reach from process start. -/
inductive SchedReachable {K : Type} [DecidableEq K] (N : Nat) :
    SchedState K → Prop where
  | init : SchedReachable N (initState K N)
  | step {s s' : SchedState K} :
      SchedReachable N s → SchedStep N s s' → SchedReachable N s'

/-- Workers for key `k` that are before their `running` write. -/
def waitingFor {K : Type} [DecidableEq K] (k : K) (w : Worker K) : Bool :=
  decide (w.key = k) &&
    (decide (w.phase = WPhase.waiting) || decide (w.phase = WPhase.slotHeld))

/-- Workers for key `k` whose job is currently `running`. -/
def workingFor {K : Type} [DecidableEq K] (k : K) (w : Worker K) : Bool :=
  decide (w.key = k) && decide (w.phase = WPhase.working)

/-- Workers currently holding a semaphore slot. -/
def holdsSlot {K : Type} (w : Worker K) : Bool :=
  decide (w.phase = WPhase.slotHeld) || decide (w.phase = WPhase.working) ||
    decide (w.phase = WPhase.releasing)

/-- Workers in `working` phase, any key. -/
def isWorking {K : Type} (w : Worker K) : Bool :=
  decide (w.phase = WPhase.working)

/-- How many workers for a key must be before their `running` write, given the
status record at that key: exactly one while the record is `queued`. -/
def expectedWaiting : Option JobRec → Nat
  | none => 0
  | some r => match r.jstate with
    | JState.queued => 1
    | _ => 0

/-- How many workers for a key must be between the `running` write and the
terminal write, given the status record at that key. -/
def expectedWorking : Option JobRec → Nat
  | none => 0
  | some r => match r.jstate with
    | JState.running => 1
    | _ => 0

/-- Per-key coupling between the status map and the worker threads. -/
def KeyInv {K : Type} [DecidableEq K] (s : SchedState K) (k : K) : Prop :=
  s.workers.countP (waitingFor k) = expectedWaiting (s.statuses k) ∧
  s.workers.countP (workingFor k) = expectedWorking (s.statuses k)

/-- Inductive invariant of the scheduler. -/
structure SchedInv {K : Type} [DecidableEq K] (N : Nat) (s : SchedState K) : Prop where
  key_inv : ∀ k : K, KeyInv s k
  sem_inv : s.sem + s.workers.countP holdsSlot = N
  rec_id_lt : ∀ (k : K) (r : JobRec), s.statuses k = some r → r.dump_id < s.nextId
  wid_lt : ∀ w ∈ s.workers, w.dump_id < s.nextId

/-- Whether the status record at key `k` is in state `running`. -/
def runningBool {K : Type} (s : SchedState K) (k : K) : Bool :=
  match s.statuses k with
  | some r => decide (r.jstate = JState.running)
  | none => false

/-- Number of status-map records in state `running`. -/
def runningCount {K : Type} [Fintype K] [DecidableEq K] (s : SchedState K) : Nat :=
  (Finset.univ.filter (fun k => runningBool s k = true)).card

-- Demonstration run used by the witnesses: two keys, MAX_PARALLEL_DUMPS = 1;
-- key 0 is submitted, admitted, marked running and completed.

/-- Demo: the initial state with two keys and one concurrency slot. -/
def S0 : SchedState (Fin 2) := initState (Fin 2) 1

/-- Demo: after `trigger_dumps` for key 0. -/
def S1 : SchedState (Fin 2) := (trigger_one S0 0).1

/-- Demo: the spawned worker for key 0. -/
def w0 : Worker (Fin 2) := ⟨0, 0, WPhase.waiting⟩

/-- Demo: after the worker acquires the semaphore slot. -/
def S2 : SchedState (Fin 2) :=
  { S1 with workers := [] ++ { w0 with phase := WPhase.slotHeld } :: [],
            sem := S1.sem - 1 }

/-- Demo: after the worker writes `running`. -/
def S3 : SchedState (Fin 2) :=
  { S2 with workers := [] ++ { w0 with phase := WPhase.working } :: [],
            statuses := Function.update S2.statuses w0.key
              (some ⟨w0.dump_id, JState.running⟩) }

/-- Demo: after the dump completes and the terminal status is written. -/
def S4 : SchedState (Fin 2) :=
  { S3 with workers := [] ++ { w0 with phase := WPhase.releasing } :: [],
            statuses := Function.update S3.statuses w0.key
              (some ⟨w0.dump_id, JState.completed⟩) }

-- ===========================================================================
-- Theorems: bounded queue (C3)
-- ===========================================================================

theorem enqueueAll_eq_drop (m : Nat) (hm : 1 ≤ m) (lines : List String) :
    enqueueAll m lines = lines.drop (lines.length - m) := by
  induction lines using List.reverseRecOn with
  | nil => simp [enqueueAll]
  | append_singleton xs x ih =>
    have hstep : enqueueAll m (xs ++ [x]) = enqueue m (enqueueAll m xs) x := by
      simp [enqueueAll, List.foldl_append]
    rw [hstep, ih]
    by_cases h : xs.length < m
    · have h0 : xs.length - m = 0 := by omega
      have h1 : (xs ++ [x]).length - m = 0 := by
        simp only [List.length_append, List.length_singleton]; omega
      rw [h0, List.drop_zero, h1, List.drop_zero]
      unfold enqueue
      rw [if_pos h]
    · have hml : m ≤ xs.length := by omega
      have hlen : (List.drop (xs.length - m) xs).length = m := by
        rw [List.length_drop]; omega
      have h1 : (xs ++ [x]).length - m = xs.length + 1 - m := by
        simp only [List.length_append, List.length_singleton]
      unfold enqueue
      rw [if_neg (by rw [hlen]; omega)]
      rw [List.tail_drop]
      rw [h1, List.drop_append_eq_append_drop]
      have h2 : xs.length + 1 - m - xs.length = 0 := by omega
      have h3 : xs.length - m + 1 = xs.length + 1 - m := by omega
      rw [h2, h3, List.drop_zero]

/-- C3: starting from empty, any sequence of `enqueue` calls leaves the
writer's queue holding at most `maxsize` records, namely exactly the most
recently enqueued ones up to capacity; and a call on a full queue drops the
oldest record (the front) and appends the new one. -/
theorem influx_enqueue_bounded_retains_latest (m : Nat) (hm : 1 ≤ m)
    (lines : List String) :
    (enqueueAll m lines).length ≤ m ∧
    enqueueAll m lines = lines.drop (lines.length - m) ∧
    (∀ (q : List String) (line : String), q.length = m →
      enqueue m q line = q.tail ++ [line]) := by
  refine ⟨?_, enqueueAll_eq_drop m hm lines, ?_⟩
  · rw [enqueueAll_eq_drop m hm lines, List.length_drop]; omega
  · intro q line h
    unfold enqueue
    rw [if_neg (by omega)]

/-- Witness for C3 at capacity 3 with five enqueued records. -/
theorem influx_enqueue_bounded_retains_latest_witness :
    1 ≤ 3 ∧ enqueueAll 3 ["a", "b", "c", "d", "e"] = ["c", "d", "e"] := by
  constructor
  · decide
  · rw [(influx_enqueue_bounded_retains_latest 3 (by decide) ["a", "b", "c", "d", "e"]).2.1]
    rfl

-- ===========================================================================
-- Theorems: line-protocol escaping (C9)
-- ===========================================================================

theorem pyReplace_append (s t : List Char) (c : Char) (r : List Char) :
    pyReplace (s ++ t) c r = pyReplace s c r ++ pyReplace t c r := by
  simp [pyReplace, List.flatMap_append]

theorem esc_tag_append (s t : List Char) :
    esc_tag (s ++ t) = esc_tag s ++ esc_tag t := by
  simp [esc_tag, pyReplace_append]

theorem escape_tag_append (s t : List Char) :
    escape_tag (s ++ t) = escape_tag s ++ escape_tag t := by
  simp [escape_tag, pyReplace_append]

theorem esc_tag_single (c : Char) : esc_tag [c] = escChar c := by
  by_cases h1 : c = '\\'
  · subst h1; decide
  by_cases h2 : c = ' '
  · subst h2; decide
  by_cases h3 : c = ','
  · subst h3; decide
  by_cases h4 : c = '='
  · subst h4; decide
  simp [esc_tag, escChar, pyReplace, h1, h2, h3, h4]

theorem escape_tag_single (c : Char) : escape_tag [c] = escCharNoBackslash c := by
  by_cases h2 : c = ' '
  · subst h2; decide
  by_cases h3 : c = ','
  · subst h3; decide
  by_cases h4 : c = '='
  · subst h4; decide
  simp [escape_tag, escCharNoBackslash, pyReplace, h2, h3, h4]

theorem esc_tag_eq_flatMap (s : List Char) : esc_tag s = s.flatMap escChar := by
  induction s with
  | nil => rfl
  | cons c s ih =>
    have h : esc_tag (c :: s) = esc_tag [c] ++ esc_tag s := by
      rw [show (c :: s) = [c] ++ s from rfl, esc_tag_append]
    rw [h, esc_tag_single, ih, List.flatMap_cons]

theorem escape_tag_eq_flatMap (s : List Char) :
    escape_tag s = s.flatMap escCharNoBackslash := by
  induction s with
  | nil => rfl
  | cons c s ih =>
    have h : escape_tag (c :: s) = escape_tag [c] ++ escape_tag s := by
      rw [show (c :: s) = [c] ++ s from rfl, escape_tag_append]
    rw [h, escape_tag_single, ih, List.flatMap_cons]

/-- C9 counterexample: the claim that every encoder escapes backslash, space,
comma and equals in measurement names and tag values is false on the code.
`memdump_service._escape_tag` leaves a backslash unescaped, and
`to_line_protocol` embeds the measurement verbatim: the measurement
`mem dumps` and the tag value `a\b` reach the output with their space and
backslash intact. -/
theorem line_encoder_escaping_counterexample :
    escape_tag [ '\\' ] = [ '\\' ] ∧
    to_line_protocol "mem dumps".toList [("k".toList, "a\\b".toList)]
      [("ok".toList, FieldVal.fbool true)] 0
      = "mem dumps,k=a\\b ok=true 0".toList := by
  constructor
  · decide
  · decide

/-- C9 amended: in the collector encoders (`_esc_tag` of the metrics script
and `_escape_tag` of `TelemetryCollector`), tag values are escaped exactly
character-wise for backslash, space, comma and equals — backslash first, so no
character is ever double-escaped; the `memdump_service` encoder escapes only
space, comma and equals (never backslash); and measurement names are embedded
verbatim, unescaped, by both line builders. -/
theorem line_encoder_escaping_amended :
    (∀ s : List Char, esc_tag s = s.flatMap escChar) ∧
    (∀ s : List Char, escape_tag s = s.flatMap escCharNoBackslash) ∧
    (∀ (m : List Char) (tags : List (List Char × List Char))
       (fields : List (List Char × FieldVal)) (ts : Int),
       ∃ rest, to_line_protocol m tags fields ts = m ++ rest) ∧
    (∀ (m : List Char) (tags : List (List Char × Option (List Char)))
       (fields : List (List Char × Option FieldVal)) (ts : Int),
       ∃ rest, lp_line m tags fields ts = m ++ rest) := by
  refine ⟨esc_tag_eq_flatMap, escape_tag_eq_flatMap, ?_, ?_⟩
  · intro m tags fields ts
    exact ⟨_, rfl⟩
  · intro m tags fields ts
    unfold lp_line
    dsimp only
    split
    · exact ⟨_, rfl⟩
    · exact ⟨_, rfl⟩

-- ===========================================================================
-- Theorems: feature rates and angles (C4, C5)
-- ===========================================================================

theorem EPS_pos : (0 : ℝ) < EPS := by
  norm_num [EPS]

theorem angle_deg_bounds (r : ℝ) : -90 < angle_deg r ∧ angle_deg r < 90 := by
  have hpi : (0 : ℝ) < Real.pi := Real.pi_pos
  have hne : Real.pi ≠ 0 := ne_of_gt hpi
  have h1 : Real.arctan r < Real.pi / 2 := Real.arctan_lt_pi_div_two r
  have h2 : -(Real.pi / 2) < Real.arctan r := Real.neg_pi_div_two_lt_arctan r
  have hc : (0 : ℝ) < 180 / Real.pi := by positivity
  constructor
  · have h3 := mul_lt_mul_of_pos_left h2 hc
    have he : (180 / Real.pi) * (-(Real.pi / 2)) = -90 := by
      field_simp
      ring
    rw [he] at h3
    exact h3
  · have h3 := mul_lt_mul_of_pos_left h1 hc
    have he : (180 / Real.pi) * (Real.pi / 2) = 90 := by
      field_simp
      ring
    rw [he] at h3
    exact h3

/-- C4: for successive updates with `c1 ≤ c2` and `t1 < t2` the emitted rate
is exactly `(c2-c1)/(t2-t1+EPS)`; it differs from the ideal `(c2-c1)/(t2-t1)`
by at most `(c2-c1)*EPS/(t2-t1)^2` (always biased low, the deliberate epsilon
policy), and the emitted angle `degrees(atan(rate))` lies strictly within
`(-90, 90)`. -/
theorem feature_rate_epsilon_bias_and_angle_bounds
    (t1 t2 c1 c2 : ℝ) (hc : c1 ≤ c2) (ht : t1 < t2) :
    rate_of t1 t2 c1 c2 = (c2 - c1) / (t2 - t1 + EPS) ∧
    0 ≤ (c2 - c1) / (t2 - t1) - rate_of t1 t2 c1 c2 ∧
    (c2 - c1) / (t2 - t1) - rate_of t1 t2 c1 c2
      ≤ (c2 - c1) * EPS / ((t2 - t1) * (t2 - t1)) ∧
    -90 < angle_deg (rate_of t1 t2 c1 c2) ∧
    angle_deg (rate_of t1 t2 c1 c2) < 90 := by
  have hT : (0 : ℝ) < t2 - t1 := by linarith
  have hd : (0 : ℝ) ≤ c2 - c1 := by linarith
  have hE : (0 : ℝ) < EPS := EPS_pos
  have hrate : rate_of t1 t2 c1 c2 = (c2 - c1) / (t2 - t1 + EPS) := by
    unfold rate_of dt_eff delta_clamped
    rw [if_neg (by linarith), if_neg (by linarith)]
  have hdiff : (c2 - c1) / (t2 - t1) - (c2 - c1) / (t2 - t1 + EPS)
      = (c2 - c1) * EPS / ((t2 - t1) * (t2 - t1 + EPS)) := by
    field_simp
    ring
  refine ⟨hrate, ?_, ?_, ?_, ?_⟩
  · rw [hrate, hdiff]
    exact div_nonneg (mul_nonneg hd hE.le) (mul_nonneg hT.le (by linarith))
  · rw [hrate, hdiff]
    gcongr
    linarith
  · exact (angle_deg_bounds _).1
  · exact (angle_deg_bounds _).2

/-- Witness for C4 at `t1 = 0, t2 = 1, c1 = 0, c2 = 5`. -/
theorem feature_rate_epsilon_bias_and_angle_bounds_witness :
    ((0 : ℝ) ≤ 5 ∧ (0 : ℝ) < 1) ∧
    (rate_of 0 1 0 5 = (5 - 0) / (1 - 0 + EPS) ∧
     0 ≤ (5 - 0) / (1 - 0) - rate_of 0 1 0 5 ∧
     (5 - 0) / (1 - 0) - rate_of 0 1 0 5 ≤ (5 - 0) * EPS / ((1 - 0) * (1 - 0)) ∧
     -90 < angle_deg (rate_of 0 1 0 5) ∧ angle_deg (rate_of 0 1 0 5) < 90) :=
  ⟨⟨by norm_num, by norm_num⟩,
   feature_rate_epsilon_bias_and_angle_bounds 0 1 0 5 (by norm_num) (by norm_num)⟩

/-- C5: on a counter regression (`c2 < c1`) the clamp in
`_compute_features_and_enqueue` makes the emitted rate exactly `0`, never
negative. -/
theorem feature_rate_counter_reset_clamp (t1 t2 c1 c2 : ℝ) (h : c2 < c1) :
    rate_of t1 t2 c1 c2 = 0 := by
  unfold rate_of delta_clamped
  rw [if_pos (by linarith)]
  exact zero_div _

/-- Witness for C5 at `c1 = 5, c2 = 3`. -/
theorem feature_rate_counter_reset_clamp_witness :
    (3 : ℝ) < 5 ∧ rate_of 0 1 5 3 = 0 :=
  ⟨by norm_num, feature_rate_counter_reset_clamp 0 1 5 3 (by norm_num)⟩

-- ===========================================================================
-- Theorems: write sink fallback (C6)
-- ===========================================================================

/-- C6: `write_influx_point` is a total function of the attempt outcomes — no
exception path reaches the caller — and when both the v3 attempt and the v2
fallback fail, the undelivered record is appended to the backlog preceded by
a header line carrying the ISO-8601 timestamp and the concatenated reason
from both attempts; on either success the backlog is untouched. -/
theorem write_influx_point_fallback_spec
    (v2 : Option (List Char)) (e3 e2 tsIso m : List Char)
    (tags : List (List Char × List Char)) (fields : List (List Char × FieldVal))
    (ts : Int) (file : List Char) :
    write_influx_point none v2 tsIso m tags fields ts file
      = (WriteOutcome.okV3, file) ∧
    write_influx_point (some e3) none tsIso m tags fields ts file
      = (WriteOutcome.okV2, file) ∧
    write_influx_point (some e3) (some e2) tsIso m tags fields ts file
      = (WriteOutcome.backlogged,
         file ++ "# ".toList ++ tsIso ++ " | influx_write_failed | ".toList
           ++ ("v3: ".toList ++ firstLine e3 ++ " ; v2: ".toList ++ firstLine e2)
           ++ [ '\n' ] ++ to_line_protocol m tags fields ts
           ++ (if (to_line_protocol m tags fields ts).getLast? = some '\n' then []
               else [ '\n' ])) :=
  ⟨rfl, rfl, rfl⟩

-- ===========================================================================
-- Theorems: progress monotonicity (C7)
-- ===========================================================================

/-- C7: while the job is `running` the monitor recomputes
`min(100, size/expected*100)` from the observed proxy size each tick; along
any run in which the observed sizes are non-decreasing (the dump file only
grows), the published progress values are non-decreasing, and they always lie
in `[0, 100]`. -/
theorem progress_monotone_while_running (expected : ℚ) (sizes : ℕ → ℚ)
    (hpos : ∀ i, 0 ≤ sizes i) (hmono : Monotone sizes) :
    Monotone (fun i => monitor_progress (sizes i) expected) ∧
    ∀ i, 0 ≤ monitor_progress (sizes i) expected ∧
         monitor_progress (sizes i) expected ≤ 100 := by
  constructor
  · intro i j hij
    dsimp only
    by_cases h : 0 < expected
    · simp only [monitor_progress, if_pos h]
      exact min_le_min le_rfl
        (mul_le_mul_of_nonneg_right ((div_le_div_iff_of_pos_right h).mpr (hmono hij))
          (by norm_num))
    · simp only [monitor_progress, if_neg h]
      exact le_rfl
  · intro i
    by_cases h : 0 < expected
    · simp only [monitor_progress, if_pos h]
      constructor
      · exact le_min (by norm_num)
          (mul_nonneg (div_nonneg (hpos i) h.le) (by norm_num))
      · exact min_le_left _ _
    · simp only [monitor_progress, if_neg h]
      norm_num

/-- Witness for C7 with `expected = 100` and sizes `0, 1, 2, ...`. -/
theorem progress_monotone_while_running_witness :
    (∀ i : ℕ, (0 : ℚ) ≤ (i : ℚ)) ∧ Monotone (fun i : ℕ => (i : ℚ)) ∧
    Monotone (fun i : ℕ => monitor_progress ((i : ℚ)) 100) := by
  have h1 : ∀ i : ℕ, (0 : ℚ) ≤ (i : ℚ) := fun i => Nat.cast_nonneg i
  have h2 : Monotone (fun i : ℕ => (i : ℚ)) := Nat.mono_cast
  exact ⟨h1, h2, (progress_monotone_while_running 100 (fun i => (i : ℚ)) h1 h2).1⟩

-- ===========================================================================
-- Theorems: shutdown drain (C8)
-- ===========================================================================

/-- C8 evaluated at the failing input: `stop()` is issued with three lines
still queued (`batch_lines = 2000`, `batch_sec = 1.0`), and the drain takes
about three milliseconds.  The loop pulls all three lines out of the queue
into `buf`, no flush trigger ever fires, the loop condition
`self._running or not self.q.empty()` goes false, and `run` returns with the
three lines still in `buf` — they are never flushed. -/
theorem influx_run_drain_discards_buffered_tail :
    (drainRun 2000 1 [("a", 1/1000), ("b", 1/1000), ("c", 1/1000)]).flushed = []
    ∧ (drainRun 2000 1 [("a", 1/1000), ("b", 1/1000), ("c", 1/1000)]).buf
        = ["a", "b", "c"] := by
  norm_num [drainRun, drainStep]

-- ===========================================================================
-- Theorems: VM-id validation (C10)
-- ===========================================================================

theorem runsStep_digit (done : List (List Char)) (cur : List Char) (c : Char)
    (h : c.isDigit = true) : runsStep (done, cur) c = (done, cur ++ [c]) := by
  unfold runsStep
  rw [if_pos h]

theorem runsStep_nondigit_nil (done : List (List Char)) (c : Char)
    (h : c.isDigit = false) : runsStep (done, []) c = (done, []) := by
  unfold runsStep
  rw [if_neg (by simp [h]), if_pos rfl]

theorem runsStep_nondigit_ne (done : List (List Char)) (cur : List Char) (c : Char)
    (h : c.isDigit = false) (hcur : cur ≠ []) :
    runsStep (done, cur) c = (done ++ [cur], []) := by
  unfold runsStep
  rw [if_neg (by simp [h]), if_neg hcur]

theorem runsFold_ne_nil (l : List Char) (done : List (List Char)) (cur : List Char)
    (h : done ≠ [] ∨ cur ≠ []) :
    (l.foldl runsStep (done, cur)).1 ≠ [] ∨ (l.foldl runsStep (done, cur)).2 ≠ [] := by
  induction l generalizing done cur with
  | nil => exact h
  | cons c l ih =>
    rw [List.foldl_cons]
    by_cases hd : c.isDigit
    · rw [runsStep_digit done cur c hd]
      apply ih
      right
      simp
    · rw [Bool.not_eq_true] at hd
      by_cases hcur : cur = []
      · subst hcur
        rw [runsStep_nondigit_nil done c hd]
        apply ih
        left
        rcases h with h1 | h1
        · exact h1
        · exact absurd rfl h1
      · rw [runsStep_nondigit_ne done cur c hd hcur]
        apply ih
        left
        simp

theorem runsFold_digit (l : List Char) (done : List (List Char)) (cur : List Char)
    (h : ∃ c ∈ l, c.isDigit = true) :
    (l.foldl runsStep (done, cur)).1 ≠ [] ∨ (l.foldl runsStep (done, cur)).2 ≠ [] := by
  induction l generalizing done cur with
  | nil => simp at h
  | cons c l ih =>
    rw [List.foldl_cons]
    by_cases hd : c.isDigit
    · rw [runsStep_digit done cur c hd]
      apply runsFold_ne_nil
      right
      simp
    · obtain ⟨x, hx, hxd⟩ := h
      rcases List.mem_cons.mp hx with h1 | h1
      · subst h1
        exact absurd hxd hd
      · exact ih _ _ ⟨x, h1, hxd⟩

theorem runsFold_no_digit (l : List Char) (done : List (List Char))
    (h : ∀ c ∈ l, ¬ c.isDigit = true) :
    l.foldl runsStep (done, []) = (done, []) := by
  induction l generalizing done with
  | nil => rfl
  | cons c l ih =>
    rw [List.foldl_cons]
    have hc : c.isDigit = false :=
      Bool.not_eq_true _ |>.mp (h c (List.mem_cons_self c l))
    rw [runsStep_nondigit_nil done c hc]
    exact ih done (fun x hx => h x (List.mem_cons_of_mem _ hx))

theorem digitRuns_eq_nil_iff (cs : List Char) :
    digitRuns cs = [] ↔ cs.all (fun c => !c.isDigit) = true := by
  constructor
  · intro h
    by_contra hall
    have hex : ∃ c ∈ cs, c.isDigit = true := by
      simpa using hall
    have h2 := runsFold_digit cs [] [] hex
    unfold digitRuns at h
    by_cases hp : (cs.foldl runsStep ([], [])).2 = []
    · rw [if_pos hp] at h
      rcases h2 with h1 | h1
      · exact h1 h
      · exact h1 hp
    · rw [if_neg hp] at h
      exact absurd h (by simp)
  · intro h
    have hfold : cs.foldl runsStep ([], []) = ([], []) := by
      apply runsFold_no_digit
      intro c hc
      have := List.all_eq_true.mp h c hc
      simpa using this
    unfold digitRuns
    rw [hfold]
    rfl

/-- C10: `_extract_vmid` returns an in-range int unchanged; on a string it
takes the **last** maximal digit run (so `"7"` and `"vm-2-7"` both map to VM
id 7) whenever that value lies in `1..99999`; digit runs exist exactly when
the string contains a digit; the documented 1-to-5-digit pattern
`VALID_VMID_PATTERN` is not what is enforced (`"vm-2-7"` fails the pattern yet
is accepted); and `ValueError` is raised exactly for non-int-non-string
inputs, empty-after-strip or digit-free strings, and out-of-range values. -/
theorem extract_vmid_spec :
    (∀ n : Int, 1 ≤ n → n ≤ 99999 → extract_vmid (VmKey.vint n) = Except.ok n) ∧
    (∀ (cs run : List Char), (digitRuns (pyStrip cs)).getLast? = some run →
       1 ≤ digitsToNat run → digitsToNat run ≤ 99999 →
       extract_vmid (VmKey.vstr cs) = Except.ok ((digitsToNat run : Int))) ∧
    (∀ cs : List Char, digitRuns cs = [] ↔ cs.all (fun c => !c.isDigit) = true) ∧
    (extract_vmid (VmKey.vstr "7".toList) = Except.ok 7 ∧
     extract_vmid (VmKey.vstr "vm-2-7".toList) = Except.ok 7 ∧
     valid_vmid_pattern "vm-2-7".toList = false) ∧
    (∀ x : VmKey, vmidOk (extract_vmid x) = false ↔
       (x = VmKey.vother ∨
        (∃ n, x = VmKey.vint n ∧ (n ≤ 0 ∨ 99999 < n)) ∨
        (∃ cs, x = VmKey.vstr cs ∧
          (pyStrip cs = [] ∨ digitRuns (pyStrip cs) = [] ∨
           (∃ run, (digitRuns (pyStrip cs)).getLast? = some run ∧
             (digitsToNat run = 0 ∨ 99999 < digitsToNat run)))))) := by
  refine ⟨?_, ?_, digitRuns_eq_nil_iff, ?_, ?_⟩
  · intro n h1 h2
    have hc : ¬ (n ≤ 0 ∨ (MAX_VMID : Int) < n) := by
      simp only [MAX_VMID]
      omega
    simp only [extract_vmid, if_neg hc]
  · intro cs run hrun h1 h2
    have hne : ¬ pyStrip cs = [] := by
      intro h0
      rw [h0] at hrun
      simp [digitRuns, runsStep] at hrun
    have hc : ¬ ((digitsToNat run : Int) ≤ 0 ∨ (MAX_VMID : Int) < (digitsToNat run : Int)) := by
      simp only [MAX_VMID]
      omega
    simp only [extract_vmid, if_neg hne, hrun, if_neg hc]
  · refine ⟨by rfl, by rfl, by decide⟩
  · intro x
    cases x with
    | vother =>
      simp only [extract_vmid, vmidOk]
      constructor
      · intro _
        exact Or.inl trivial
      · intro _
        trivial
    | vint n =>
      simp only [extract_vmid]
      by_cases hc : n ≤ 0 ∨ (MAX_VMID : Int) < n
      · rw [if_pos hc]
        simp only [vmidOk]
        constructor
        · intro _
          refine Or.inr (Or.inl ⟨n, rfl, ?_⟩)
          simpa [MAX_VMID] using hc
        · intro _
          trivial
      · rw [if_neg hc]
        simp only [vmidOk]
        constructor
        · intro h
          exact absurd h (by simp)
        · rintro (h | ⟨n', hn', hr⟩ | ⟨cs', hcs, _⟩)
          · exact VmKey.noConfusion h
          · have hnn : n = n' := by injection hn'
            subst hnn
            simp only [MAX_VMID] at hc
            omega
          · exact VmKey.noConfusion hcs
    | vstr cs =>
      simp only [extract_vmid]
      by_cases h0 : pyStrip cs = []
      · rw [if_pos h0]
        simp only [vmidOk]
        constructor
        · intro _
          exact Or.inr (Or.inr ⟨cs, rfl, Or.inl h0⟩)
        · intro _
          trivial
      · rw [if_neg h0]
        rcases hrun : (digitRuns (pyStrip cs)).getLast? with _ | run
        · simp only [vmidOk]
          constructor
          · intro _
            refine Or.inr (Or.inr ⟨cs, rfl, Or.inr (Or.inl ?_)⟩)
            exact List.getLast?_eq_none_iff.mp hrun
          · intro _
            trivial
        · dsimp only
          by_cases hc : (digitsToNat run : Int) ≤ 0 ∨ (MAX_VMID : Int) < (digitsToNat run : Int)
          · rw [if_pos hc]
            simp only [vmidOk]
            constructor
            · intro _
              refine Or.inr (Or.inr ⟨cs, rfl, Or.inr (Or.inr ⟨run, hrun, ?_⟩)⟩)
              simp only [MAX_VMID] at hc
              omega
            · intro _
              trivial
          · rw [if_neg hc]
            simp only [vmidOk]
            constructor
            · intro h
              exact absurd h (by simp)
            · rintro (h | ⟨n', hn', _⟩ | ⟨cs', hcs, hdis⟩)
              · exact VmKey.noConfusion h
              · exact VmKey.noConfusion hn'
              · have hcc : cs' = cs := by injection hcs with h'; exact h'.symm
                subst hcc
                rcases hdis with hd1 | hd2 | ⟨run', hrun', hcond⟩
                · exact absurd hd1 h0
                · rw [hd2] at hrun
                  simp at hrun
                · rw [hrun'] at hrun
                  have : run' = run := by injection hrun
                  subst this
                  simp only [MAX_VMID] at hc
                  omega

/-- Witness for C10: the int 7 and the string `"vm-2-7"` both validate to 7. -/
theorem extract_vmid_spec_witness :
    extract_vmid (VmKey.vint 7) = Except.ok 7 ∧
    extract_vmid (VmKey.vstr "vm-2-7".toList) = Except.ok ((digitsToNat [ '7' ] : Int)) :=
  ⟨extract_vmid_spec.1 7 (by decide) (by decide),
   extract_vmid_spec.2.1 "vm-2-7".toList [ '7' ] (by decide) (by decide) (by decide)⟩

-- ===========================================================================
-- Theorems: scheduler invariant (C1, C2)
-- ===========================================================================

theorem countP_decomp {α : Type} (p : α → Bool) (l₁ l₂ : List α) (w : α) :
    (l₁ ++ w :: l₂).countP p
      = l₁.countP p + l₂.countP p + (if p w = true then 1 else 0) := by
  rw [List.countP_append, List.countP_cons]
  omega

theorem countP_set_middle {α : Type} (p : α → Bool) (l₁ l₂ : List α) (w w' : α)
    (h : p w' = p w) :
    (l₁ ++ w' :: l₂).countP p = (l₁ ++ w :: l₂).countP p := by
  rw [countP_decomp, countP_decomp, h]

theorem status_of_waiting {K : Type} [DecidableEq K] {N : Nat} {s : SchedState K}
    (hinv : SchedInv N s) {w : Worker K} (hmem : w ∈ s.workers)
    (hph : w.phase = WPhase.waiting ∨ w.phase = WPhase.slotHeld) :
    ∃ r : JobRec, s.statuses w.key = some r ∧ r.jstate = JState.queued := by
  have hpos : 0 < s.workers.countP (waitingFor w.key) := by
    apply List.countP_pos_iff.mpr
    refine ⟨w, hmem, ?_⟩
    rcases hph with h | h <;> simp [waitingFor, h]
  have hkey := (hinv.key_inv w.key).1
  rw [hkey] at hpos
  rcases hst : s.statuses w.key with _ | r
  · rw [hst] at hpos
    simp [expectedWaiting] at hpos
  · rw [hst] at hpos
    refine ⟨r, rfl, ?_⟩
    obtain ⟨id, st⟩ := r
    cases st <;> simp_all [expectedWaiting]

theorem status_of_working {K : Type} [DecidableEq K] {N : Nat} {s : SchedState K}
    (hinv : SchedInv N s) {w : Worker K} (hmem : w ∈ s.workers)
    (hph : w.phase = WPhase.working) :
    ∃ r : JobRec, s.statuses w.key = some r ∧ r.jstate = JState.running := by
  have hpos : 0 < s.workers.countP (workingFor w.key) := by
    apply List.countP_pos_iff.mpr
    exact ⟨w, hmem, by simp [workingFor, hph]⟩
  have hkey := (hinv.key_inv w.key).2
  rw [hkey] at hpos
  rcases hst : s.statuses w.key with _ | r
  · rw [hst] at hpos
    simp [expectedWorking] at hpos
  · rw [hst] at hpos
    refine ⟨r, rfl, ?_⟩
    obtain ⟨id, st⟩ := r
    cases st <;> simp_all [expectedWorking]

theorem wid_lt_update {K : Type} {s : SchedState K} {l₁ l₂ : List (Worker K)}
    {w : Worker K} (hw : s.workers = l₁ ++ w :: l₂)
    (hall : ∀ x ∈ s.workers, x.dump_id < s.nextId) (ph : WPhase) :
    ∀ x ∈ l₁ ++ { w with phase := ph } :: l₂, x.dump_id < s.nextId := by
  intro x hx
  have hwmem : w ∈ s.workers := by
    rw [hw]
    exact List.mem_append_right _ (List.mem_cons_self _ _)
  rcases List.mem_append.mp hx with hx | hx
  · exact hall x (by rw [hw]; exact List.mem_append_left _ hx)
  rcases List.mem_cons.mp hx with hx | hx
  · subst hx
    exact hall w hwmem
  · exact hall x (by rw [hw]; exact List.mem_append_right _ (List.mem_cons_of_mem _ hx))

theorem schedInv_spawn {K : Type} [DecidableEq K] {N : Nat} {s : SchedState K} (k : K)
    (hinv : SchedInv N s)
    (h0 : s.workers.countP (waitingFor k) = 0)
    (h1 : s.workers.countP (workingFor k) = 0) :
    SchedInv N (spawn_job s k).1 := by
  refine ⟨?_, ?_, ?_, ?_⟩
  · intro k'
    by_cases hk : k' = k
    · subst hk
      constructor
      · show ((⟨k', s.nextId, WPhase.waiting⟩ : Worker K) :: s.workers).countP (waitingFor k')
            = expectedWaiting (Function.update s.statuses k' (some ⟨s.nextId, JState.queued⟩) k')
        rw [List.countP_cons, h0, Function.update_same]
        simp [waitingFor, expectedWaiting]
      · show ((⟨k', s.nextId, WPhase.waiting⟩ : Worker K) :: s.workers).countP (workingFor k')
            = expectedWorking (Function.update s.statuses k' (some ⟨s.nextId, JState.queued⟩) k')
        rw [List.countP_cons, h1, Function.update_same]
        simp [workingFor, expectedWorking]
    · have hkk : ¬ (k = k') := fun h => hk h.symm
      constructor
      · show ((⟨k, s.nextId, WPhase.waiting⟩ : Worker K) :: s.workers).countP (waitingFor k')
            = expectedWaiting (Function.update s.statuses k (some ⟨s.nextId, JState.queued⟩) k')
        rw [List.countP_cons, Function.update_noteq hk]
        have hne : waitingFor k' (⟨k, s.nextId, WPhase.waiting⟩ : Worker K) = false := by
          simp [waitingFor, hkk]
        rw [hne]
        simpa using (hinv.key_inv k').1
      · show ((⟨k, s.nextId, WPhase.waiting⟩ : Worker K) :: s.workers).countP (workingFor k')
            = expectedWorking (Function.update s.statuses k (some ⟨s.nextId, JState.queued⟩) k')
        rw [List.countP_cons, Function.update_noteq hk]
        have hne : workingFor k' (⟨k, s.nextId, WPhase.waiting⟩ : Worker K) = false := by
          simp [workingFor, hkk]
        rw [hne]
        simpa using (hinv.key_inv k').2
  · show s.sem + ((⟨k, s.nextId, WPhase.waiting⟩ : Worker K) :: s.workers).countP holdsSlot = N
    rw [List.countP_cons]
    have hne : holdsSlot (⟨k, s.nextId, WPhase.waiting⟩ : Worker K) = false := by
      simp [holdsSlot]
    rw [hne]
    simpa using hinv.sem_inv
  · intro k' r hst'
    simp only [spawn_job] at hst'
    by_cases hk : k' = k
    · subst hk
      rw [Function.update_same] at hst'
      obtain rfl : (⟨s.nextId, JState.queued⟩ : JobRec) = r := Option.some.inj hst'
      show s.nextId < s.nextId + 1
      omega
    · rw [Function.update_noteq hk] at hst'
      exact Nat.lt_succ_of_lt (hinv.rec_id_lt k' r hst')
  · intro x hx
    rcases List.mem_cons.mp hx with hx | hx
    · subst hx
      show s.nextId < s.nextId + 1
      omega
    · exact Nat.lt_succ_of_lt (hinv.wid_lt x hx)

theorem ite_one_of_true {c : Bool} (h : c = true) :
    (if c = true then (1 : Nat) else 0) = 1 := by
  simp [h]

theorem ite_zero_of_false {c : Bool} (h : c = false) :
    (if c = true then (1 : Nat) else 0) = 0 := by
  simp [h]

theorem schedInv_step {K : Type} [DecidableEq K] {N : Nat} {s s' : SchedState K}
    (hinv : SchedInv N s) (hstep : SchedStep N s s') : SchedInv N s' := by
  cases hstep with
  | submit k =>
    rcases hst : s.statuses k with _ | r
    · have h0 : s.workers.countP (waitingFor k) = 0 := by
        have h := (hinv.key_inv k).1
        rw [hst] at h
        simpa [expectedWaiting] using h
      have h1 : s.workers.countP (workingFor k) = 0 := by
        have h := (hinv.key_inv k).2
        rw [hst] at h
        simpa [expectedWorking] using h
      have hs' : (trigger_one s k).1 = (spawn_job s k).1 := by
        simp [trigger_one, hst]
      rw [hs']
      exact schedInv_spawn k hinv h0 h1
    · by_cases hact : isActiveState r.jstate = true
      · have hs' : (trigger_one s k).1 = s := by
          simp [trigger_one, hst, hact]
        rw [hs']
        exact hinv
      · have h0 : s.workers.countP (waitingFor k) = 0 := by
          have h := (hinv.key_inv k).1
          rw [hst] at h
          obtain ⟨id, st⟩ := r
          cases st <;> simp_all [expectedWaiting, isActiveState]
        have h1 : s.workers.countP (workingFor k) = 0 := by
          have h := (hinv.key_inv k).2
          rw [hst] at h
          obtain ⟨id, st⟩ := r
          cases st <;> simp_all [expectedWorking, isActiveState]
        have hs' : (trigger_one s k).1 = (spawn_job s k).1 := by
          simp [trigger_one, hst, hact]
        rw [hs']
        exact schedInv_spawn k hinv h0 h1
  | acquire l₁ l₂ w hw hph hsem =>
    refine ⟨?_, ?_, hinv.rec_id_lt, wid_lt_update hw hinv.wid_lt _⟩
    · intro k
      have e1 : waitingFor k ({ w with phase := WPhase.slotHeld } : Worker K)
          = waitingFor k w := by
        simp [waitingFor, hph]
      have e2 : workingFor k ({ w with phase := WPhase.slotHeld } : Worker K)
          = workingFor k w := by
        simp [workingFor, hph]
      have hk := hinv.key_inv k
      constructor
      · show ((l₁ ++ { w with phase := WPhase.slotHeld } :: l₂).countP (waitingFor k))
            = expectedWaiting (s.statuses k)
        rw [countP_set_middle _ _ _ _ _ e1, ← hw]
        exact hk.1
      · show ((l₁ ++ { w with phase := WPhase.slotHeld } :: l₂).countP (workingFor k))
            = expectedWorking (s.statuses k)
        rw [countP_set_middle _ _ _ _ _ e2, ← hw]
        exact hk.2
    · have hsum := hinv.sem_inv
      rw [hw, countP_decomp,
        ite_zero_of_false (show holdsSlot w = false by simp [holdsSlot, hph])] at hsum
      show s.sem - 1 + ((l₁ ++ { w with phase := WPhase.slotHeld } :: l₂).countP holdsSlot) = N
      rw [countP_decomp,
        ite_one_of_true
          (show holdsSlot ({ w with phase := WPhase.slotHeld } : Worker K) = true by
            simp [holdsSlot])]
      omega
  | markRunning l₁ l₂ w hw hph =>
    have hwmem : w ∈ s.workers := by
      rw [hw]
      exact List.mem_append_right _ (List.mem_cons_self _ _)
    obtain ⟨r, hst, hq⟩ := status_of_waiting hinv hwmem (Or.inr hph)
    have hwait1 : s.workers.countP (waitingFor w.key) = 1 := by
      have h := (hinv.key_inv w.key).1
      rw [hst] at h
      obtain ⟨id, st⟩ := r
      simp only at hq
      subst hq
      simpa [expectedWaiting] using h
    have hwork0 : s.workers.countP (workingFor w.key) = 0 := by
      have h := (hinv.key_inv w.key).2
      rw [hst] at h
      obtain ⟨id, st⟩ := r
      simp only at hq
      subst hq
      simpa [expectedWorking] using h
    rw [hw, countP_decomp,
      ite_one_of_true (show waitingFor w.key w = true by simp [waitingFor, hph])] at hwait1
    rw [hw, countP_decomp,
      ite_zero_of_false (show workingFor w.key w = false by simp [workingFor, hph])] at hwork0
    refine ⟨?_, ?_, ?_, wid_lt_update hw hinv.wid_lt _⟩
    · intro k
      by_cases hk : k = w.key
      · subst hk
        constructor
        · show ((l₁ ++ { w with phase := WPhase.working } :: l₂).countP (waitingFor w.key))
              = expectedWaiting
                  (Function.update s.statuses w.key (some ⟨w.dump_id, JState.running⟩) w.key)
          rw [countP_decomp, Function.update_same,
            ite_zero_of_false
              (show waitingFor w.key ({ w with phase := WPhase.working } : Worker K) = false by
                simp [waitingFor])]
          simp only [expectedWaiting]
          omega
        · show ((l₁ ++ { w with phase := WPhase.working } :: l₂).countP (workingFor w.key))
              = expectedWorking
                  (Function.update s.statuses w.key (some ⟨w.dump_id, JState.running⟩) w.key)
          rw [countP_decomp, Function.update_same,
            ite_one_of_true
              (show workingFor w.key ({ w with phase := WPhase.working } : Worker K) = true by
                simp [workingFor])]
          simp only [expectedWorking]
          omega
      · have hk' : ¬ (w.key = k) := fun h => hk h.symm
        have e1 : waitingFor k ({ w with phase := WPhase.working } : Worker K)
            = waitingFor k w := by
          simp [waitingFor, hk']
        have e2 : workingFor k ({ w with phase := WPhase.working } : Worker K)
            = workingFor k w := by
          simp [workingFor, hk']
        have hkey := hinv.key_inv k
        constructor
        · show ((l₁ ++ { w with phase := WPhase.working } :: l₂).countP (waitingFor k))
              = expectedWaiting (Function.update s.statuses w.key (some ⟨w.dump_id, JState.running⟩) k)
          rw [countP_set_middle _ _ _ _ _ e1, Function.update_noteq hk, ← hw]
          exact hkey.1
        · show ((l₁ ++ { w with phase := WPhase.working } :: l₂).countP (workingFor k))
              = expectedWorking (Function.update s.statuses w.key (some ⟨w.dump_id, JState.running⟩) k)
          rw [countP_set_middle _ _ _ _ _ e2, Function.update_noteq hk, ← hw]
          exact hkey.2
    · show s.sem + ((l₁ ++ { w with phase := WPhase.working } :: l₂).countP holdsSlot) = N
      rw [countP_set_middle _ _ _ _ _
        (show holdsSlot ({ w with phase := WPhase.working } : Worker K) = holdsSlot w by
          simp [holdsSlot, hph])]
      rw [← hw]
      exact hinv.sem_inv
    · intro k r' hst'
      dsimp only at hst' ⊢
      by_cases hk : k = w.key
      · subst hk
        rw [Function.update_same] at hst'
        obtain rfl : (⟨w.dump_id, JState.running⟩ : JobRec) = r' := Option.some.inj hst'
        exact hinv.wid_lt w hwmem
      · rw [Function.update_noteq hk] at hst'
        exact hinv.rec_id_lt k r' hst'
  | finish l₁ l₂ w st hterm hw hph =>
    have hwmem : w ∈ s.workers := by
      rw [hw]
      exact List.mem_append_right _ (List.mem_cons_self _ _)
    obtain ⟨r, hst, hq⟩ := status_of_working hinv hwmem hph
    have hwait0 : s.workers.countP (waitingFor w.key) = 0 := by
      have h := (hinv.key_inv w.key).1
      rw [hst] at h
      obtain ⟨id, st0⟩ := r
      simp only at hq
      subst hq
      simpa [expectedWaiting] using h
    have hwork1 : s.workers.countP (workingFor w.key) = 1 := by
      have h := (hinv.key_inv w.key).2
      rw [hst] at h
      obtain ⟨id, st0⟩ := r
      simp only at hq
      subst hq
      simpa [expectedWorking] using h
    rw [hw, countP_decomp,
      ite_zero_of_false (show waitingFor w.key w = false by simp [waitingFor, hph])] at hwait0
    rw [hw, countP_decomp,
      ite_one_of_true (show workingFor w.key w = true by simp [workingFor, hph])] at hwork1
    have hexpW : expectedWaiting (some ⟨w.dump_id, st⟩) = 0 := by
      rcases hterm with h | h <;> simp [expectedWaiting, h]
    have hexpR : expectedWorking (some ⟨w.dump_id, st⟩) = 0 := by
      rcases hterm with h | h <;> simp [expectedWorking, h]
    refine ⟨?_, ?_, ?_, wid_lt_update hw hinv.wid_lt _⟩
    · intro k
      by_cases hk : k = w.key
      · subst hk
        constructor
        · show ((l₁ ++ { w with phase := WPhase.releasing } :: l₂).countP (waitingFor w.key))
              = expectedWaiting (Function.update s.statuses w.key (some ⟨w.dump_id, st⟩) w.key)
          rw [countP_decomp, Function.update_same, hexpW,
            ite_zero_of_false
              (show waitingFor w.key ({ w with phase := WPhase.releasing } : Worker K) = false by
                simp [waitingFor])]
          omega
        · show ((l₁ ++ { w with phase := WPhase.releasing } :: l₂).countP (workingFor w.key))
              = expectedWorking (Function.update s.statuses w.key (some ⟨w.dump_id, st⟩) w.key)
          rw [countP_decomp, Function.update_same, hexpR,
            ite_zero_of_false
              (show workingFor w.key ({ w with phase := WPhase.releasing } : Worker K) = false by
                simp [workingFor])]
          omega
      · have hk' : ¬ (w.key = k) := fun h => hk h.symm
        have e1 : waitingFor k ({ w with phase := WPhase.releasing } : Worker K)
            = waitingFor k w := by
          simp [waitingFor, hk']
        have e2 : workingFor k ({ w with phase := WPhase.releasing } : Worker K)
            = workingFor k w := by
          simp [workingFor, hk']
        have hkey := hinv.key_inv k
        constructor
        · show ((l₁ ++ { w with phase := WPhase.releasing } :: l₂).countP (waitingFor k))
              = expectedWaiting (Function.update s.statuses w.key (some ⟨w.dump_id, st⟩) k)
          rw [countP_set_middle _ _ _ _ _ e1, Function.update_noteq hk, ← hw]
          exact hkey.1
        · show ((l₁ ++ { w with phase := WPhase.releasing } :: l₂).countP (workingFor k))
              = expectedWorking (Function.update s.statuses w.key (some ⟨w.dump_id, st⟩) k)
          rw [countP_set_middle _ _ _ _ _ e2, Function.update_noteq hk, ← hw]
          exact hkey.2
    · show s.sem + ((l₁ ++ { w with phase := WPhase.releasing } :: l₂).countP holdsSlot) = N
      rw [countP_set_middle _ _ _ _ _
        (show holdsSlot ({ w with phase := WPhase.releasing } : Worker K) = holdsSlot w by
          simp [holdsSlot, hph])]
      rw [← hw]
      exact hinv.sem_inv
    · intro k r' hst'
      dsimp only at hst' ⊢
      by_cases hk : k = w.key
      · subst hk
        rw [Function.update_same] at hst'
        obtain rfl : (⟨w.dump_id, st⟩ : JobRec) = r' := Option.some.inj hst'
        exact hinv.wid_lt w hwmem
      · rw [Function.update_noteq hk] at hst'
        exact hinv.rec_id_lt k r' hst'
  | release l₁ l₂ w hw hph =>
    refine ⟨?_, ?_, hinv.rec_id_lt, wid_lt_update hw hinv.wid_lt _⟩
    · intro k
      have e1 : waitingFor k ({ w with phase := WPhase.wdone } : Worker K)
          = waitingFor k w := by
        simp [waitingFor, hph]
      have e2 : workingFor k ({ w with phase := WPhase.wdone } : Worker K)
          = workingFor k w := by
        simp [workingFor, hph]
      have hk := hinv.key_inv k
      constructor
      · show ((l₁ ++ { w with phase := WPhase.wdone } :: l₂).countP (waitingFor k))
            = expectedWaiting (s.statuses k)
        rw [countP_set_middle _ _ _ _ _ e1, ← hw]
        exact hk.1
      · show ((l₁ ++ { w with phase := WPhase.wdone } :: l₂).countP (workingFor k))
            = expectedWorking (s.statuses k)
        rw [countP_set_middle _ _ _ _ _ e2, ← hw]
        exact hk.2
    · have hsum := hinv.sem_inv
      rw [hw, countP_decomp,
        ite_one_of_true (show holdsSlot w = true by simp [holdsSlot, hph])] at hsum
      show s.sem + 1 + ((l₁ ++ { w with phase := WPhase.wdone } :: l₂).countP holdsSlot) = N
      rw [countP_decomp,
        ite_zero_of_false
          (show holdsSlot ({ w with phase := WPhase.wdone } : Worker K) = false by
            simp [holdsSlot])]
      omega

theorem schedInv_reachable {K : Type} [DecidableEq K] {N : Nat} {s : SchedState K}
    (h : SchedReachable N s) : SchedInv N s := by
  induction h with
  | init =>
    refine ⟨?_, ?_, ?_, ?_⟩
    · intro k
      constructor <;> simp [initState, expectedWaiting, expectedWorking]
    · simp [initState]
    · intro k r h
      simp [initState] at h
    · intro w hw
      simp [initState] at hw
  | step _ hstep ih => exact schedInv_step ih hstep

theorem sum_countP_workingFor {K : Type} [DecidableEq K] [Fintype K]
    (l : List (Worker K)) :
    (∑ k ∈ Finset.univ, l.countP (workingFor k)) = l.countP isWorking := by
  induction l with
  | nil => simp
  | cons w l ih =>
    simp only [List.countP_cons]
    rw [Finset.sum_add_distrib, ih]
    congr 1
    by_cases hw : w.phase = WPhase.working
    · have he : ∀ k ∈ Finset.univ, (if workingFor k w = true then 1 else 0)
          = if w.key = k then 1 else 0 := by
        intro k _
        simp [workingFor, hw]
      rw [Finset.sum_congr rfl he, Finset.sum_ite_eq]
      simp [isWorking, hw]
    · have he : ∀ k ∈ Finset.univ, (if workingFor k w = true then (1 : Nat) else 0) = 0 := by
        intro k _
        simp [workingFor, hw]
      rw [Finset.sum_congr rfl he]
      simp [isWorking, hw]

/-- C1: in every reachable state of the dump service, at most
`MAX_PARALLEL_DUMPS = N` records of the status map `_active_dumps` are in
state `running` simultaneously — regardless of how many keys (`M > N`
included) have been submitted.  Every `running` record is backed by exactly
one worker thread holding a semaphore slot, and at most `N` slots exist. -/
theorem dump_running_le_max_parallel {K : Type} [DecidableEq K] [Fintype K]
    (N : Nat) (s : SchedState K) (h : SchedReachable N s) :
    runningCount s ≤ N := by
  have hinv := schedInv_reachable h
  have h1 : ∀ k ∈ Finset.univ.filter (fun k => runningBool s k = true),
      s.workers.countP (workingFor k) = 1 := by
    intro k hk
    rw [Finset.mem_filter] at hk
    have hr := hk.2
    unfold runningBool at hr
    rcases hst : s.statuses k with _ | r
    · rw [hst] at hr
      simp at hr
    · rw [hst] at hr
      simp only [decide_eq_true_eq] at hr
      have h2 := (hinv.key_inv k).2
      rw [hst] at h2
      obtain ⟨id, st⟩ := r
      simp only at hr
      subst hr
      simpa [expectedWorking] using h2
  calc runningCount s
      = ∑ _k ∈ Finset.univ.filter (fun k => runningBool s k = true), 1 :=
        Finset.card_eq_sum_ones _
    _ = ∑ k ∈ Finset.univ.filter (fun k => runningBool s k = true),
          s.workers.countP (workingFor k) :=
        Finset.sum_congr rfl (fun k hk => (h1 k hk).symm)
    _ ≤ ∑ k ∈ Finset.univ, s.workers.countP (workingFor k) :=
        Finset.sum_le_sum_of_subset (Finset.filter_subset _ _)
    _ = s.workers.countP isWorking := sum_countP_workingFor _
    _ ≤ s.workers.countP holdsSlot := by
        apply List.countP_mono_left
        intro w _ hw
        simp only [isWorking, decide_eq_true_eq] at hw
        simp [holdsSlot, hw]
    _ ≤ N := by
        have := hinv.sem_inv
        omega

/-- C2: one `trigger_dumps` iteration for key `k`.  If the existing record is
`queued` or `running`, the call returns that record with id and state
unchanged, mutates nothing and spawns no worker.  If the record has reached a
terminal state (`completed` or `failed`), the call returns a brand-new record
in state `queued` whose id is fresh — different from the id of every record
in the map — installs it in the map, and spawns exactly one new worker. -/
theorem trigger_dumps_submit_spec {K : Type} [DecidableEq K] (N : Nat)
    (s : SchedState K) (hreach : SchedReachable N s) (k : K) :
    (∀ r : JobRec, s.statuses k = some r → isActiveState r.jstate = true →
       trigger_one s k = (s, r)) ∧
    (∀ r : JobRec, s.statuses k = some r →
       (r.jstate = JState.completed ∨ r.jstate = JState.failed) →
       (trigger_one s k).2 = ⟨s.nextId, JState.queued⟩ ∧
       (trigger_one s k).1.statuses k = some ⟨s.nextId, JState.queued⟩ ∧
       (trigger_one s k).1.workers = ⟨k, s.nextId, WPhase.waiting⟩ :: s.workers ∧
       (∀ (k' : K) (r' : JobRec), s.statuses k' = some r' → r'.dump_id ≠ s.nextId)) := by
  have hinv := schedInv_reachable hreach
  constructor
  · intro r hst hact
    simp [trigger_one, hst, hact]
  · intro r hst hterm
    have hact : isActiveState r.jstate = false := by
      rcases hterm with h | h <;> simp [isActiveState, h]
    refine ⟨?_, ?_, ?_, ?_⟩
    · simp [trigger_one, hst, hact, spawn_job]
    · simp [trigger_one, hst, hact, spawn_job]
    · simp [trigger_one, hst, hact, spawn_job]
    · intro k' r' hst'
      exact Nat.ne_of_lt (hinv.rec_id_lt k' r' hst')

/-- Witness for C1 on the demonstration run: in `S3` the job for key 0 is
`running`, the scheduler started from `MAX_PARALLEL_DUMPS = 1`, and the
running count is exactly 1 ≤ 1. -/
theorem dump_running_le_max_parallel_witness :
    runningCount S3 ≤ 1 ∧ runningCount S3 = 1 := by
  have h0 : SchedReachable (K := Fin 2) 1 S0 := SchedReachable.init
  have h1 : SchedReachable 1 S1 := SchedReachable.step h0 (SchedStep.submit S0 0)
  have h2 : SchedReachable 1 S2 :=
    SchedReachable.step h1 (SchedStep.acquire S1 [] [] w0 rfl rfl (by decide))
  have h3 : SchedReachable 1 S3 :=
    SchedReachable.step h2
      (SchedStep.markRunning S2 [] [] { w0 with phase := WPhase.slotHeld } rfl rfl)
  exact ⟨dump_running_le_max_parallel 1 S3 h3, by decide⟩

/-- Witness for C2 on the demonstration run: in `S4` the job for key 0 is
`completed`; resubmitting key 0 yields a fresh record with the next id in
state `queued` and spawns one new worker. -/
theorem trigger_dumps_submit_spec_witness :
    (trigger_one S4 0).2 = ⟨S4.nextId, JState.queued⟩ ∧
    (trigger_one S4 0).1.workers = ⟨0, S4.nextId, WPhase.waiting⟩ :: S4.workers := by
  have h0 : SchedReachable (K := Fin 2) 1 S0 := SchedReachable.init
  have h1 : SchedReachable 1 S1 := SchedReachable.step h0 (SchedStep.submit S0 0)
  have h2 : SchedReachable 1 S2 :=
    SchedReachable.step h1 (SchedStep.acquire S1 [] [] w0 rfl rfl (by decide))
  have h3 : SchedReachable 1 S3 :=
    SchedReachable.step h2
      (SchedStep.markRunning S2 [] [] { w0 with phase := WPhase.slotHeld } rfl rfl)
  have h4 : SchedReachable 1 S4 :=
    SchedReachable.step h3
      (SchedStep.finish S3 [] [] { w0 with phase := WPhase.working }
        JState.completed (Or.inl rfl) rfl rfl)
  have hspec := (trigger_dumps_submit_spec 1 S4 h4 0).2 ⟨0, JState.completed⟩
    (by decide) (Or.inl rfl)
  exact ⟨hspec.1, hspec.2.2.1⟩
